import Mathlib

/-!
Shallow embedding of `loadreviewtools.py` (thermal load review tools).

The source program parses fixed-column whitespace-delimited plot files into
per-column arrays (strings for a fixed set of "opaque" column names, doubles
for all others), and writes two text outputs: an ending-configuration snapshot
(`writePropData`) and a thermal load review report (`writeChecklistData`).

Machine doubles are modelled as `NumVal`: either NaN or an exact rational;
numpy's `nanargmax` / `nanargmin` (ignore NaN, first index achieving the
extremum, error when every entry is NaN) are modelled on lists of `NumVal`.
Fallible operations (missing file, IndexError on a short line, ValueError on a
bad numeric token or an all-NaN column, TypeError when `"%f"` meets a string)
return `Option` / are a `Bool` failure flag on whole runs.
-/

set_option autoImplicit false
set_option maxRecDepth 100000

namespace LoadReview

/-- A machine double as far as this program observes it: NaN or an exact
rational value (the program only parses, compares and prints doubles). -/
inductive NumVal where
  | nan : NumVal
  | val : ℚ → NumVal
deriving DecidableEq

/-- A cell of a parsed table: an opaque raw token (string columns) or a
parsed double (numeric columns), mirroring the two branches of
`LoadReviewTools._readfile`. -/
inductive Value where
  | str : String → Value
  | num : NumVal → Value
deriving DecidableEq

/-- A parsed plot table: column name to column values, in schema order
(Python dict with insertion order = schema name order). -/
abbrev Table : Type := List (String × List Value)

/-- First-match association lookup (Python dict access / `KeyError` as
`none`). -/
def alookup {β : Type} (k : String) : List (String × β) → Option β
  | [] => none
  | (a, b) :: rest => if a = k then some b else alookup k rest

/-- Whitespace test used by `str.split()` with no argument. -/
def isWS (c : Char) : Bool :=
  c = ' ' || c = '\t' || c = '\n' || c = '\r'

/-- Tokenizer accumulator: walk the characters, splitting at whitespace runs. -/
def tokensAux : List Char → List Char → List String
  | [], cur => if cur = [] then [] else [String.mk cur.reverse]
  | c :: rest, cur =>
      if isWS c then
        if cur = [] then tokensAux rest [] else String.mk cur.reverse :: tokensAux rest []
      else tokensAux rest (c :: cur)

/-- `line.strip().split()`: whitespace-delimited tokens, empties dropped. -/
def tokens (line : String) : List String :=
  tokensAux line.data []

/-- Numeric value of a run of decimal digit characters. -/
def digitsToNat (cs : List Char) : Nat :=
  cs.foldl (fun n c => n * 10 + (c.toNat - 48)) 0

/-- Parse an unsigned decimal token (`"12"`, `"12.5"`, `"12."`, `".5"`) to
its digit value and fraction length, so that the value is
`digits / 10 ^ fracLen`; `none` when the token is not such a literal. -/
def parseUnsigned (cs : List Char) : Option (Nat × Nat) :=
  let intPart := cs.takeWhile (fun c => c.isDigit)
  let rest := cs.dropWhile (fun c => c.isDigit)
  match rest with
  | [] => if intPart = [] then none else some (digitsToNat intPart, 0)
  | '.' :: frac =>
      if frac.all (fun c => c.isDigit) && !(intPart = [] && frac = []) then
        some (digitsToNat (intPart ++ frac), frac.length)
      else none
  | _ => none

/-- ASCII lower-casing of one character (`str.lower()` on the ASCII column
names this program uses). -/
def lowerChar (c : Char) : Char :=
  if 65 ≤ c.toNat && c.toNat ≤ 90 then Char.ofNat (c.toNat + 32) else c

/-- ASCII `str.lower()`. -/
def lowerStr (s : String) : String :=
  String.mk (s.data.map lowerChar)

/-- Split a token's characters at the first `e`/`E` (scientific-notation
separator); the second component holds the exponent characters when the
separator is present. -/
def splitAtExp : List Char → List Char × Option (List Char)
  | [] => ([], none)
  | c :: rest =>
      if c = 'e' || c = 'E' then ([], some rest)
      else
        let r := splitAtExp rest
        (c :: r.1, r.2)

/-- Parse the exponent of a scientific-notation token: an optional sign
followed by a nonempty digit run. -/
def parseExp : List Char → Option Int
  | [] => none
  | '-' :: ds =>
      if !ds.isEmpty && ds.all (fun c => c.isDigit) then some (-(digitsToNat ds : Int))
      else none
  | '+' :: ds =>
      if !ds.isEmpty && ds.all (fun c => c.isDigit) then some ((digitsToNat ds : Int))
      else none
  | ds =>
      if ds.all (fun c => c.isDigit) then some ((digitsToNat ds : Int)) else none

/-- Model of `np.double(token)` on the finite values it can produce from a
text token: an optional sign followed by a decimal literal with an optional
`e`/`E` exponent, or (case-insensitively) `nan`. Any other token raises
`ValueError`, modelled as `none`; infinity tokens, which cannot occur in
these telemetry plot files, are outside the model's value domain and also map
to `none`. -/
def parseDouble (s : String) : Option NumVal :=
  let core : List Char :=
    match s.data with
    | '-' :: r => r
    | '+' :: r => r
    | r => r
  let neg : Bool :=
    match s.data with
    | '-' :: _ => true
    | _ => false
  if lowerStr (String.mk core) = "nan" then some NumVal.nan
  else
    let me := splitAtExp core
    let expVal : Option Int :=
      match me.2 with
      | none => some 0
      | some ecs => parseExp ecs
    match parseUnsigned me.1, expVal with
    | some p, some ev =>
        let num : Int := if neg then -(p.1 : Int) else (p.1 : Int)
        some (NumVal.val (mkRat (num * 10 ^ ev.toNat) (10 ^ (p.2 + (-ev).toNat))))
    | _, _ => none

/-- Lower-cased names of the columns `_readfile` keeps as opaque strings. -/
def opaqueNames : List String :=
  ["time", "si", "within_limit", "15v", "24v", "hrci", "hrcs", "shield", "5v_a", "5v_b"]

/-- `name.lower() in [...]`: the column-type policy test of `_readfile` and
`_writeReportData`. -/
def isOpaque (name : String) : Bool :=
  decide (lowerStr name ∈ opaqueNames)

/-- One cell of `_readfile`: keep the raw token for an opaque column, else
parse it as a double (`ValueError` is `none`). -/
def cellParse (op : Bool) (tok : String) : Option Value :=
  match op with
  | true => some (Value.str tok)
  | false => (parseDouble tok).map Value.num

/-- One column of `_readfile`: for each data line take the token at position
`i` (`IndexError` on a short line is `none`), then parse the cell per the
column-type policy. -/
def readCol (i : Nat) (op : Bool) : List (List String) → Option (List Value)
  | [] => some []
  | tl :: rest => do
      let tok ← tl.get? i
      let v ← cellParse op tok
      let vs ← readCol i op rest
      some (v :: vs)

/-- The `for num, name in enumerate(subheaderinfo["names"])` loop of
`_readfile`, building the table column by column. -/
def buildCols (toklines : List (List String)) : List String → Nat → Option Table
  | [], _ => some []
  | n :: rest, i => do
      let col ← readCol i (isOpaque n) toklines
      let t ← buildCols toklines rest (i + 1)
      some ((n, col) :: t)

/-- `LoadReviewTools._readfile`: pop the header line unconditionally (an empty
file raises `IndexError`), tokenize every remaining line, and build one column
per schema name positionally. -/
def readfile (names : List String) : List String → Option Table
  | [] => none
  | _ :: datalines => buildCols (datalines.map tokens) names 0

/-- Pad a natural number below `10^6` to exactly six digits. -/
def natPad6 (n : Nat) : String :=
  let s := toString n
  String.mk (List.replicate (6 - s.length) '0') ++ s

/-- Python `"%f" % q`: fixed-point rendering with six fractional digits
(sign, integer part, `.`, six digits; ties rounded up in this model). On
`q = num / den` the printed digits are `|num| * 10^6 / den` rounded to the
nearest integer. -/
def fixed6 (q : ℚ) : String :=
  let neg := decide (q.num < 0)
  let n : Nat := (q.num.natAbs * 1000000 + q.den / 2) / q.den
  (if neg then "-" else "") ++ toString (n / 1000000) ++ "." ++ natPad6 (n % 1000000)

/-- Python `"%f" % v`: succeeds on doubles (`nan` prints as `"nan"`), raises
`TypeError` on a string value (modelled as `none`). -/
def fmtF : Value → Option String
  | Value.num NumVal.nan => some "nan"
  | Value.num (NumVal.val q) => some (fixed6 q)
  | Value.str _ => none

/-- Python `"%s" % v`: the raw string of an opaque value; numeric values are
rendered as by `fixed6` (that branch is never reached on parser output, where
`"%s"` is only applied to opaque columns). -/
def fmtS : Value → String
  | Value.str s => s
  | Value.num NumVal.nan => "nan"
  | Value.num (NumVal.val q) => fixed6 q

/-- The non-NaN entries of a double column. -/
def numsOf : List NumVal → List ℚ :=
  List.filterMap (fun v => match v with | NumVal.val q => some q | NumVal.nan => none)

/-- Maximum of a rational list (`none` on the empty list). -/
def listMax : List ℚ → Option ℚ
  | [] => none
  | q :: rest =>
      match listMax rest with
      | none => some q
      | some m => some (max q m)

/-- Minimum of a rational list (`none` on the empty list). -/
def listMin : List ℚ → Option ℚ
  | [] => none
  | q :: rest =>
      match listMin rest with
      | none => some q
      | some m => some (min q m)

/-- Index of the first element satisfying `p` (`none` when there is none). -/
def findFirstIdx (p : NumVal → Bool) : List NumVal → Option Nat
  | [] => none
  | v :: rest => if p v then some 0 else (findFirstIdx p rest).map Nat.succ

/-- `np.nanargmax`: the first index achieving the maximum over the non-NaN
entries; `ValueError` (modelled as `none`) when every entry is NaN. -/
def nanargmax (xs : List NumVal) : Option Nat :=
  match listMax (numsOf xs) with
  | none => none
  | some m => findFirstIdx (fun v => decide (v = NumVal.val m)) xs

/-- `np.nanargmin`: the first index achieving the minimum over the non-NaN
entries; `ValueError` (modelled as `none`) when every entry is NaN. -/
def nanargmin (xs : List NumVal) : Option Nat :=
  match listMin (numsOf xs) with
  | none => none
  | some m => findFirstIdx (fun v => decide (v = NumVal.val m)) xs

/-- View a column as a double array; `none` when any cell is a string
(numpy `nanargmax` on a string array raises, and the parser never yields a
string cell in a non-opaque column). -/
def colNums : List Value → Option (List NumVal)
  | [] => some []
  | Value.num x :: rest => (colNums rest).map (fun l => x :: l)
  | Value.str _ :: _ => none

/-- The 79-dash separator line of a report section. -/
def dashline : String :=
  String.mk (List.replicate 79 '-') ++ "\n"

/-- One `"    name: value"` line of the Propagation / Reviewed Schedule / End
blocks: `"%s"` for an opaque column, `"%f"` for a numeric one, the cell picked
from the column by `pick` (row 0 or row -1). -/
def valLine (t : Table) (pick : List Value → Option Value) (name : String) : Option String := do
  let col ← alookup name t
  let v ← pick col
  if isOpaque name then some ("    " ++ name ++ ": " ++ fmtS v ++ "\n")
  else do
    let f ← fmtF v
    some ("    " ++ name ++ ": " ++ f ++ "\n")

/-- The block of per-column value lines over `names` (source: the
`for name in names` loops of `_writeReportData`). -/
def valLines (t : Table) (pick : List Value → Option Value) : List String → Option String
  | [] => some ""
  | n :: rest => do
      let l ← valLine t pick n
      let ls ← valLines t pick rest
      some (l ++ ls)

/-- One `"    name: max  (time)"` line of the Max/Min Values blocks: opaque
columns are skipped (no line); otherwise the extremum index `sel` (nanargmax
or nanargmin) picks both the value and the Time cell. -/
def extLine (t : Table) (sel : List NumVal → Option Nat) (name : String) : Option String :=
  if isOpaque name then some ""
  else do
    let col ← alookup name t
    let nums ← colNums col
    let i ← sel nums
    let v ← col.get? i
    let f ← fmtF v
    let tcol ← alookup "Time" t
    let tv ← tcol.get? i
    some ("    " ++ name ++ ": " ++ f ++ "  (" ++ fmtS tv ++ ")\n")

/-- A Propagation / Reviewed Schedule / End block over `names`, emitted line
by line — each line is one `outfile.write` call — so on the first failing
column the lines already written are kept (first component) and the failure
is flagged (second component). -/
def valLinesW (t : Table) (pick : List Value → Option Value) : List String → String × Bool
  | [] => ("", true)
  | n :: rest =>
      match valLine t pick n with
      | none => ("", false)
      | some l =>
          let res := valLinesW t pick rest
          (l ++ res.1, res.2)

/-- The Max Values (`sel = nanargmax`) or Min Values (`sel = nanargmin`)
block over `names`, emitted line by line like `valLinesW`: on the first
failing column (e.g. an all-NaN `ValueError`) the lines already written are
kept and the failure is flagged. -/
def extLinesW (t : Table) (sel : List NumVal → Option Nat) : List String → String × Bool
  | [] => ("", true)
  | n :: rest =>
      match extLine t sel n with
      | none => ("", false)
      | some l =>
          let res := extLinesW t sel rest
          (l ++ res.1, res.2)

/-- `LoadReviewTools._writeReportData`: one report section, written call by
call in source order (title header, Propagation block from the propagation
table's first row, Reviewed Schedule block from the review table's first row,
NaN-safe Max/Min Values blocks over the review table, End block from the
review table's last row). Returns the text actually written and a success
flag: an uncaught error (`KeyError`, `IndexError`, all-NaN `ValueError`)
stops the section mid-way, and everything written before it stays in the
file. Each `"%s"`/`"%f"` format is evaluated before its write, so a failing
line contributes nothing. -/
def writeReportDataW (propdata reviewdata : Table) (names : List String)
    (modelname : String) : String × Bool :=
  let s0 := dashline ++ modelname ++ " Report\n" ++ dashline ++ "\n"
    ++ "Propagation:\n" ++ "------------\n"
  match (alookup "Time" propdata).bind (fun c => c.get? 0) with
  | none => (s0, false)
  | some pt0 =>
      let s1 := s0 ++ "Start:    " ++ fmtS pt0 ++ "\n"
      let r1 := valLinesW propdata (fun c => c.get? 0) names
      match r1.2 with
      | false => (s1 ++ r1.1, false)
      | true =>
          let s2 := s1 ++ r1.1 ++ "\nReviewed Schedule:\n" ++ "-------------------\n"
          match (alookup "Time" reviewdata).bind (fun c => c.get? 0) with
          | none => (s2, false)
          | some rt0 =>
              let s3 := s2 ++ "Start:    " ++ fmtS rt0 ++ "\n"
              let r2 := valLinesW reviewdata (fun c => c.get? 0) names
              match r2.2 with
              | false => (s3 ++ r2.1, false)
              | true =>
                  let s4 := s3 ++ r2.1 ++ "\nMax Values:\n"
                  let r3 := extLinesW reviewdata nanargmax names
                  match r3.2 with
                  | false => (s4 ++ r3.1, false)
                  | true =>
                      let s5 := s4 ++ r3.1 ++ "\nMin Values:\n"
                      let r4 := extLinesW reviewdata nanargmin names
                      match r4.2 with
                      | false => (s5 ++ r4.1, false)
                      | true =>
                          let s6 := s5 ++ r4.1
                          match (alookup "Time" reviewdata).bind List.getLast? with
                          | none => (s6, false)
                          | some rtl =>
                              let s7 := s6 ++ "\nEnd: " ++ fmtS rtl ++ "\n"
                              let r5 := valLinesW reviewdata (fun c => c.getLast?) names
                              match r5.2 with
                              | false => (s7 ++ r5.1, false)
                              | true => (s7 ++ r5.1 ++ "\n\n\n", true)

/-- One entry of the schema registry `self.headerinfo`: expected column
count, ordered column names (first is `"Time"`), display title. -/
structure ModelInfo where
  columns : Nat
  names : List String
  title : String
deriving DecidableEq

/-- The schema registry: model key to schema, mutable state of the object
(the report writer aliases and mutates the `names` lists). -/
abbrev Registry : Type := List (String × ModelInfo)

/-- `self.fileparts`: model key to plot-file suffix. -/
def fileparts : List (String × String) :=
  [("psmc", "_1pdeaat_plot.txt"),
   ("dpa", "_dpa_plot.txt"),
   ("dea", "_dea_plot.txt"),
   ("tank", "_pftank2t_plot.txt"),
   ("aca", "_aca_plot.txt"),
   ("mups", "_mups_valves_plot.txt"),
   ("oba", "_4rt700t_plot.txt"),
   ("pline03t", "_pline03t_plot.txt"),
   ("pline04t", "_pline04t_plot.txt"),
   ("hrc", "_2ceahvpt_plot.txt"),
   ("acisfp", "_acis_fp_plot.txt")]

/-- `self.headerinfo` as built in `__init__` (its value at construction
time). -/
def headerinfo0 : Registry :=
  [("psmc", ⟨6, ["Time", "1PDEAAT", "PIN1AT", "Pitch", "Roll", "Sun_Body_Y"], "ACIS: PSMC"⟩),
   ("dpa", ⟨11, ["Time", "1DPAMZT", "DPA0", "Pitch", "Roll", "Sun_Body_Y", "SimPos",
      "FEP_Count", "CCD_Count", "Vid_Board", "Clocking"], "ACIS: DPA"⟩),
   ("dea", ⟨11, ["Time", "1DEAMZT", "DEA0", "Pitch", "Roll", "Sun_Body_Y", "SimPos",
      "FEP_Count", "CCD_Count", "Vid_Board", "Clocking"], "ACIS: DEA"⟩),
   ("tank", ⟨7, ["Time", "PFTANK2T", "PFTANKIP", "PF0TANK2T", "Pitch", "Roll", "Sun_Body_Y"],
      "Spacecraft: Fuel Tank"⟩),
   ("aca", ⟨5, ["Time", "AACCCDPT", "ACA0", "Pitch", "Roll"], "Spacecraft: Aspect Camera"⟩),
   ("mups", ⟨6, ["Time", "PM1THV2T", "PM1THV2T_0", "PM2THV1T", "PM2THV1T_0", "PM2THV1T_1"],
      "Spacecraft: MUPS Valves"⟩),
   ("cc", ⟨5, ["Time", "TCYLAFT6", "TCYLAFT6_0", "Pitch", "Roll"], "Spacecraft: Central Cylinder"⟩),
   ("oba", ⟨5, ["Time", "4RT700T", "4RT700T_0", "Pitch", "Roll"], "OBA: Forward Bulkhead"⟩),
   ("pline03t", ⟨5, ["Time", "PLINE03T", "PLINE03T_0", "Pitch", "Roll"], "PLINE03T"⟩),
   ("pline04t", ⟨5, ["Time", "PLINE04T", "PLINE04T_0", "Pitch", "Roll"], "PLINE04T"⟩),
   ("hrc", ⟨19, ["Time", "2CEAHVPT", "CEA0", "CEA1", "15V", "24V", "HRCI", "HRCS", "Shield",
      "5V_A", "5V_B", "Pitch", "Roll", "SimPos", "FEP_Count", "CCD_Count", "Vid_Board",
      "Clocking", "DH_Heater"], "ISIM: HRC CEA"⟩),
   ("acisfp", ⟨23, ["Time", "FPTEMP", "FPTEMP_Rel", "Solid_Angle", "in_out", "1CBAT", "SIM_PX",
      "Pitch", "Roll", "Sun_Body_Y", "SimPos", "FEP_Count", "CCD_Count", "Vid_Board",
      "Clocking", "CTI", "Radmon_Enabled", "DH_Heater", "ACIS_NIL_Undercover", "SI",
      "Cold_FP", "FPTEMP_Limit", "Within_Limit"], "ISIM: ACIS FP"⟩)]

/-- `self.propnames`: the fixed allow-list of propagatable channel names. -/
def propnames : List String :=
  ["PM1THV2T", "PM1THV2T_0", "PM2THV1T", "PM2THV1T_0", "PM2THV1T_1", "1PDEAAT", "PIN1AT",
   "TCYLAFT6", "TCYLAFT6_0", "1DPAMZT", "DPA0", "PFTANK2T", "PF0TANK2T", "SimPos", "chips",
   "FEP_Count", "CCD_Count", "Vid_Board", "Clocking", "AACCCDPT", "ACA0", "4RT700T",
   "4RT700T_0", "1DEAMZT", "DEA0", "Roll", "Sun_Body_Y", "PLINE03T", "PLINE03T_0",
   "PLINE04T", "PLINE04T_0", "2CEAHVPT", "CEA0", "CEA1", "15V", "24V", "HRCI", "HRCS",
   "Shield", "5V_A", "5V_B", "FPTEMP", "FPTEMP_Rel", "Solid_Angle", "in_out", "1CBAT",
   "CTI", "Radmon_Enabled", "DH_Heater", "ACIS_NIL_Undercover", "SI", "Cold_FP",
   "FPTEMP_Limit", "Within_Limit"]

/-- `self.plotorder`: the fixed display order of models. -/
def plotorder : List String :=
  ["oba", "tank", "mups", "psmc", "dpa", "dea", "aca", "pline03t", "pline04t", "acisfp"]

/-- The filesystem as this batch tool sees it: file name to its lines,
`none` for a missing file (`IOError`). -/
abbrev Files : Type := String → Option (List String)

/-- Replace the `names` list of the registry entry for key `m` (the effect of
mutating the aliased Python list in place). -/
def setNames (reg : Registry) (m : String) (ns : List String) : Registry :=
  reg.map (fun p => if p.1 = m then (p.1, { p.2 with names := ns }) else p)

/-- One iteration of the `writeChecklistData` loop for model `m`: read the
propagation and review files under the model's schema (both reads precede
every write for this model), then pop `"Time"` off the aliased `names` list
(mutating the registry), then write the section. Returns (text written for
this model, success flag) and the registry afterwards; a read failure writes
nothing, a failure inside the section keeps its prefix. -/
def stepChecklist (files : Files) (prop review : String) (reg : Registry) (m : String) :
    (String × Bool) × Registry :=
  match alookup m fileparts, alookup m reg with
  | some sfx, some info =>
      match (files (prop ++ sfx)).bind (readfile info.names),
            (files (review ++ sfx)).bind (readfile info.names) with
      | some pd, some rd =>
          let datanames := info.names.tail
          (writeReportDataW pd rd datanames info.title, setNames reg m datanames)
      | _, _ => (("", false), reg)
  | _, _ => (("", false), reg)

/-- The `for name in self.plotorder` loop of `writeChecklistData`: output is
appended to the file write by write, so on the first error the file holds the
complete sections of the models already processed plus whatever the failing
model's section wrote before the error. Returns (file content, final
registry, success flag). -/
def runChecklist (files : Files) (prop review : String) :
    List String → Registry → String × Registry × Bool
  | [], reg => ("", reg, true)
  | m :: rest, reg =>
      let st := stepChecklist files prop review reg m
      match st.1.2 with
      | false => (st.1.1, st.2, false)
      | true =>
          let res := runChecklist files prop review rest st.2
          (st.1.1 ++ res.1, res.2.1, res.2.2)

/-- `LoadReviewTools.writeChecklistData`: run the report over `plotorder`
starting from the registry built in `__init__`. -/
def writeChecklistData (files : Files) (prop review : String) : String × Registry × Bool :=
  runChecklist files prop review plotorder headerinfo0

/-- The per-channel lines of `writePropData` for one model, emitted line by
line: for each column name in the allow-list, `" name : %f"` of the column's
last value, one `outfile.write` per line; `"%f"` on an opaque (string) cell
raises `TypeError`, which stops the group with the lines already written
kept. -/
def propLinesForW (pd : Table) : List String → String × Bool
  | [] => ("", true)
  | loc :: rest =>
      if loc ∈ propnames then
        match (alookup loc pd).bind (fun col => col.getLast?) with
        | none => ("", false)
        | some v =>
            match fmtF v with
            | none => ("", false)
            | some f =>
                let res := propLinesForW pd rest
                (" " ++ loc ++ " : " ++ f ++ "\n" ++ res.1, res.2)
      else propLinesForW pd rest

/-- One iteration of the `writePropData` loop for model `m`: read the
propagation file, write the Time of Validity header when `m` is the first
model, then the allow-listed channel lines over `names[1:]` (a copy — no
registry mutation). Returns the text written for this model and a success
flag; on a failure the text written before it is kept (a read or header
failure writes nothing, its format being evaluated before the write). -/
def propGroupW (files : Files) (prop : String) (reg : Registry) (isFirst : Bool)
    (m : String) : String × Bool :=
  match alookup m fileparts, alookup m reg with
  | some sfx, some info =>
      match (files (prop ++ sfx)).bind (readfile info.names) with
      | none => ("", false)
      | some pd =>
          let datanames := info.names.drop 1
          match (if isFirst then
              ((alookup "Time" pd).bind List.getLast?).map
                (fun tv => "Time of Validity:  " ++ fmtS tv ++ "\n")
            else some "") with
          | none => ("", false)
          | some hdr =>
              let body := propLinesForW pd datanames
              (hdr ++ body.1, body.2)
  | _, _ => ("", false)

/-- The complete line group of model `m` when every write succeeds, `none`
when any of them errors: the view of `propGroupW` saying which models produce
a full group. -/
def propGroup (files : Files) (prop : String) (reg : Registry) (isFirst : Bool)
    (m : String) : Option String :=
  match propGroupW files prop reg isFirst m with
  | (s, true) => some s
  | (_, false) => none

/-- The `for num, name in enumerate(self.plotorder)` loop of `writePropData`:
output is appended write by write, so on the first error the file holds the
complete groups already written plus whatever the failing model's group wrote
before the error. Returns (file content, registry afterwards, success
flag). -/
def runProp (files : Files) (prop : String) :
    List String → Registry → Bool → String × Registry × Bool
  | [], reg, _ => ("", reg, true)
  | m :: rest, reg, isFirst =>
      let g := propGroupW files prop reg isFirst m
      match g.2 with
      | false => (g.1, reg, false)
      | true =>
          let res := runProp files prop rest reg false
          (g.1 ++ res.1, res.2.1, res.2.2)

/-- `LoadReviewTools.writePropData`: run the ending-configuration writer over
`plotorder` from the registry built in `__init__`. -/
def writePropData (files : Files) (prop : String) : String × Registry × Bool :=
  runProp files prop plotorder headerinfo0 true

/-- The sections of a report run as a list, one per model, defined only when
every model succeeds (used to state that a successful report is exactly one
section per `plotorder` model, in order). -/
def runSections (files : Files) (prop review : String) :
    List String → Registry → Option (List String)
  | [], _ => some []
  | m :: rest, reg =>
      let st := stepChecklist files prop review reg m
      match st.1.2 with
      | false => none
      | true => (runSections files prop review rest st.2).map (fun ss => st.1.1 :: ss)

/-- The per-model line groups of an ending-configuration run as a list,
defined only when every listed model succeeds. -/
def propSections (files : Files) (prop : String) :
    List String → Registry → Bool → Option (List String)
  | [], _, _ => some []
  | m :: rest, reg, isFirst => do
      let g ← propGroup files prop reg isFirst m
      let gs ← propSections files prop rest reg false
      some (g :: gs)

/-- Concatenation of a list of output chunks, in order (the effect of
successive `outfile.write` calls). -/
def concatAll : List String → String
  | [] => ""
  | s :: rest => s ++ concatAll rest

/-! ### Concrete sample inputs used by witnesses and counterexamples -/

/-- Sample oba plot line (5 columns). -/
def lineOba : String := "t1 10.5 11.0 120.0 30.0"

/-- Sample tank plot line (7 columns). -/
def lineTank : String := "t1 60.5 1.2 61.0 120.0 30.0 0.5"

/-- Sample mups plot line (6 columns). -/
def lineMups : String := "t1 100.0 101.0 102.0 103.0 104.0"

/-- Sample psmc plot line (6 columns). -/
def linePsmc : String := "t1 40.0 41.0 120.0 30.0 0.7"

/-- Sample dpa plot line (11 columns). -/
def lineDpa : String := "t1 25.0 24.0 120.0 30.0 0.7 92000.0 3.0 4.0 1.0 1.0"

/-- Sample dea plot line (11 columns). -/
def lineDea : String := "t1 26.0 23.0 120.0 30.0 0.7 92000.0 3.0 4.0 1.0 1.0"

/-- Sample aca plot line (5 columns). -/
def lineAca : String := "t1 -5.0 -6.0 120.0 30.0"

/-- Sample pline03t plot line (5 columns). -/
def linePl3 : String := "t1 80.0 81.0 120.0 30.0"

/-- Sample pline04t plot line (5 columns). -/
def linePl4 : String := "t1 82.0 83.0 120.0 30.0"

/-- Sample acisfp plot line (23 columns; `SI` and `Within_Limit` hold their
usual opaque string values). -/
def lineAcisfp : String :=
  "t1 -110.0 10.0 0.5 1.0 -8.0 -99.0 120.0 30.0 0.7 92000.0 3.0 4.0 1.0 1.0 0.0 1.0 0.0 0.0 ACIS-I 0.0 -112.0 Y"

/-- Sample file content (header plus one data line) per model key. -/
def modelLines : String → Option (List String)
  | "oba" => some ["hdr", lineOba]
  | "tank" => some ["hdr", lineTank]
  | "mups" => some ["hdr", lineMups]
  | "psmc" => some ["hdr", linePsmc]
  | "dpa" => some ["hdr", lineDpa]
  | "dea" => some ["hdr", lineDea]
  | "aca" => some ["hdr", lineAca]
  | "pline03t" => some ["hdr", linePl3]
  | "pline04t" => some ["hdr", linePl4]
  | "acisfp" => some ["hdr", lineAcisfp]
  | _ => none

/-- A complete working directory: every plot file of schedules `P` and `R`
present with one data row. -/
def files10 : Files := fun s =>
  if s = "P_4rt700t_plot.txt" || s = "R_4rt700t_plot.txt" then modelLines "oba"
  else if s = "P_pftank2t_plot.txt" || s = "R_pftank2t_plot.txt" then modelLines "tank"
  else if s = "P_mups_valves_plot.txt" || s = "R_mups_valves_plot.txt" then modelLines "mups"
  else if s = "P_1pdeaat_plot.txt" || s = "R_1pdeaat_plot.txt" then modelLines "psmc"
  else if s = "P_dpa_plot.txt" || s = "R_dpa_plot.txt" then modelLines "dpa"
  else if s = "P_dea_plot.txt" || s = "R_dea_plot.txt" then modelLines "dea"
  else if s = "P_aca_plot.txt" || s = "R_aca_plot.txt" then modelLines "aca"
  else if s = "P_pline03t_plot.txt" || s = "R_pline03t_plot.txt" then modelLines "pline03t"
  else if s = "P_pline04t_plot.txt" || s = "R_pline04t_plot.txt" then modelLines "pline04t"
  else if s = "P_acis_fp_plot.txt" || s = "R_acis_fp_plot.txt" then modelLines "acisfp"
  else none

/-- A working directory holding only the oba plot files of schedules `P` and
`R`: the report run succeeds on oba and then hits a missing tank file. -/
def filesOba : Files := fun s =>
  if s = "P_4rt700t_plot.txt" || s = "R_4rt700t_plot.txt" then modelLines "oba"
  else none

/-- A working directory where the review oba file's 4RT700T column is all
NaN: the report run fails with `ValueError` inside the oba section's Max
Values block, after the section header, the Propagation and Reviewed
Schedule blocks and the `"Max Values:"` heading are already in the file. -/
def filesNaN : Files := fun s =>
  if s = "P_4rt700t_plot.txt" then modelLines "oba"
  else if s = "R_4rt700t_plot.txt" then some ["hdr", "t1 nan 11.0 120.0 30.0"]
  else none

/-! ### Association-list lemmas -/

theorem alookup_mem {β : Type} {k : String} {b : β} :
    ∀ {l : List (String × β)}, alookup k l = some b → (k, b) ∈ l := by
  intro l
  induction l with
  | nil => intro h; simp [alookup] at h
  | cons p rest ih =>
      obtain ⟨a, c⟩ := p
      intro h
      simp only [alookup] at h
      split at h
      · rename_i heq
        injection h with h
        subst heq h
        exact List.mem_cons_self _ _
      · exact List.mem_cons_of_mem _ (ih h)

theorem alookup_isSome_of_mem_fst {β : Type} {k : String} :
    ∀ {l : List (String × β)}, k ∈ l.map Prod.fst → (alookup k l).isSome := by
  intro l
  induction l with
  | nil => intro h; simp at h
  | cons p rest ih =>
      obtain ⟨a, c⟩ := p
      intro h
      simp only [alookup]
      split
      · rfl
      · rename_i hne
        rcases List.mem_cons.mp h with h1 | h1
        · exact absurd h1.symm hne
        · exact ih h1

/-! ### Parser lemmas -/

theorem readCol_length {i : Nat} {op : Bool} :
    ∀ {L : List (List String)} {col : List Value},
      readCol i op L = some col → col.length = L.length := by
  intro L
  induction L with
  | nil => intro col h; simp [readCol] at h; simp [← h]
  | cons tl rest ih =>
      intro col h
      simp only [readCol, Option.bind_eq_bind, Option.bind_eq_some] at h
      obtain ⟨tok, _, v, _, vs, hvs, hcol⟩ := h
      injection hcol with hcol
      subst hcol
      simp [ih hvs]

theorem readCol_get {i : Nat} {op : Bool} :
    ∀ {L : List (List String)} {col : List Value}, readCol i op L = some col →
      ∀ {k : Nat} {tl : List String}, L.get? k = some tl →
        ∃ tok, tl.get? i = some tok ∧
          ((op = true ∧ col.get? k = some (Value.str tok)) ∨
           (op = false ∧ ∃ x, parseDouble tok = some x ∧ col.get? k = some (Value.num x))) := by
  intro L
  induction L with
  | nil => intro col _ k tl hk; simp at hk
  | cons tl0 rest ih =>
      intro col h k tl hk
      simp only [readCol, Option.bind_eq_bind, Option.bind_eq_some] at h
      obtain ⟨tok, htok, v, hv, vs, hvs, hcol⟩ := h
      injection hcol with hcol
      subst hcol
      cases k with
      | zero =>
          simp only [List.get?_cons_zero] at hk
          injection hk with hk
          subst hk
          refine ⟨tok, htok, ?_⟩
          cases op with
          | true =>
              left
              simp only [cellParse] at hv
              injection hv with hv
              simp [← hv]
          | false =>
              right
              simp only [cellParse] at hv
              rcases Option.map_eq_some'.mp hv with ⟨x, hx, hvx⟩
              exact ⟨rfl, x, hx, by simp [← hvx]⟩
      | succ k' =>
          simp only [List.get?_cons_succ] at hk ⊢
          exact ih hvs hk

theorem readCol_some {i : Nat} {op : Bool} :
    ∀ {L : List (List String)},
      (∀ tl ∈ L, ∃ tok, tl.get? i = some tok ∧ (op = true ∨ (parseDouble tok).isSome)) →
      (readCol i op L).isSome := by
  intro L
  induction L with
  | nil => intro _; simp [readCol]
  | cons tl rest ih =>
      intro h
      obtain ⟨tok, htok, hval⟩ := h tl (List.mem_cons_self _ _)
      have hrest := ih (fun l hl => h l (List.mem_cons_of_mem _ hl))
      rcases Option.isSome_iff_exists.mp hrest with ⟨vs, hvs⟩
      have hv : (cellParse op tok).isSome := by
        cases op with
        | true => simp [cellParse]
        | false =>
            rcases hval with h1 | h1
            · exact absurd h1 (by simp)
            · rcases Option.isSome_iff_exists.mp h1 with ⟨x, hx⟩
              simp [cellParse, hx]
      rcases Option.isSome_iff_exists.mp hv with ⟨v, hveq⟩
      have hcons : readCol i op (tl :: rest) = some (v :: vs) := by
        simp only [readCol, Option.bind_eq_bind]
        rw [htok, Option.some_bind, hveq, Option.some_bind, hvs, Option.some_bind]
      rw [hcons]
      rfl

theorem readCol_types {i : Nat} {op : Bool} :
    ∀ {L : List (List String)} {col : List Value}, readCol i op L = some col →
      ∀ v ∈ col, (op = true → ∃ s, v = Value.str s) ∧ (op = false → ∃ x, v = Value.num x) := by
  intro L
  induction L with
  | nil => intro col h v hv; simp [readCol] at h; subst h; simp at hv
  | cons tl rest ih =>
      intro col h v hv
      simp only [readCol, Option.bind_eq_bind, Option.bind_eq_some] at h
      obtain ⟨tok, _, w, hw, vs, hvs, hcol⟩ := h
      injection hcol with hcol
      subst hcol
      rcases List.mem_cons.mp hv with h1 | h1
      · subst h1
        constructor
        · intro hop; subst hop
          simp only [cellParse] at hw
          injection hw with hw
          exact ⟨tok, hw.symm⟩
        · intro hop; subst hop
          simp only [cellParse] at hw
          rcases Option.map_eq_some'.mp hw with ⟨x, _, hx⟩
          exact ⟨x, hx.symm⟩
      · exact ih hvs v h1

theorem readCol_isSome_len {i : Nat} {op : Bool} :
    ∀ {L : List (List String)} {col : List Value}, readCol i op L = some col →
      ∀ tl ∈ L, i < tl.length := by
  intro L
  induction L with
  | nil => intro col _ tl htl; simp at htl
  | cons tl0 rest ih =>
      intro col h tl htl
      simp only [readCol, Option.bind_eq_bind, Option.bind_eq_some] at h
      obtain ⟨tok, htok, v, _, vs, hvs, _⟩ := h
      rcases List.mem_cons.mp htl with h1 | h1
      · subst h1
        have := List.get?_eq_some.mp htok
        exact this.1
      · exact ih hvs tl h1

theorem buildCols_fst {toklines : List (List String)} :
    ∀ {names : List String} {i : Nat} {t : Table},
      buildCols toklines names i = some t → t.map Prod.fst = names := by
  intro names
  induction names with
  | nil =>
      intro i t h
      simp only [buildCols] at h
      injection h with h
      simp [← h]
  | cons n rest ih =>
      intro i t h
      simp only [buildCols, Option.bind_eq_bind, Option.bind_eq_some] at h
      obtain ⟨col, _, t', ht', heq⟩ := h
      injection heq with heq
      subst heq
      simp [ih ht']

theorem buildCols_get {toklines : List (List String)} :
    ∀ {names : List String} {i0 : Nat} {t : Table}, buildCols toklines names i0 = some t →
      ∀ {j : Nat} {n : String}, names.get? j = some n →
        ∃ col, t.get? j = some (n, col) ∧ readCol (i0 + j) (isOpaque n) toklines = some col := by
  intro names
  induction names with
  | nil => intro i0 t _ j n hj; simp at hj
  | cons n0 rest ih =>
      intro i0 t h j n hj
      simp only [buildCols, Option.bind_eq_bind, Option.bind_eq_some] at h
      obtain ⟨col, hcol, t', ht', heq⟩ := h
      injection heq with heq
      subst heq
      cases j with
      | zero =>
          simp only [List.get?_cons_zero] at hj
          injection hj with hj
          subst hj
          exact ⟨col, by simp, by simpa using hcol⟩
      | succ j' =>
          simp only [List.get?_cons_succ] at hj
          obtain ⟨col', hc1, hc2⟩ := ih ht' hj
          refine ⟨col', by simpa using hc1, ?_⟩
          have harith : i0 + (j' + 1) = i0 + 1 + j' := by omega
          rw [harith]
          exact hc2

theorem buildCols_cols {toklines : List (List String)} :
    ∀ {names : List String} {i : Nat} {t : Table}, buildCols toklines names i = some t →
      ∀ p ∈ t, ∃ idx, readCol idx (isOpaque p.1) toklines = some p.2 := by
  intro names
  induction names with
  | nil =>
      intro i t h p hp
      simp only [buildCols] at h
      injection h with h
      subst h
      simp at hp
  | cons n0 rest ih =>
      intro i t h p hp
      simp only [buildCols, Option.bind_eq_bind, Option.bind_eq_some] at h
      obtain ⟨col, hcol, t', ht', heq⟩ := h
      injection heq with heq
      subst heq
      rcases List.mem_cons.mp hp with h1 | h1
      · subst h1
        exact ⟨i, hcol⟩
      · exact ih ht' p h1

theorem buildCols_some {toklines : List (List String)} :
    ∀ {names : List String} {i0 : Nat},
      (∀ j n, names.get? j = some n → ∀ tl ∈ toklines,
        ∃ tok, tl.get? (i0 + j) = some tok ∧ (isOpaque n = true ∨ (parseDouble tok).isSome)) →
      (buildCols toklines names i0).isSome := by
  intro names
  induction names with
  | nil => intro i0 _; simp [buildCols]
  | cons n0 rest ih =>
      intro i0 h
      have h0 : ∀ tl ∈ toklines,
          ∃ tok, tl.get? i0 = some tok ∧ (isOpaque n0 = true ∨ (parseDouble tok).isSome) := by
        intro tl htl
        have := h 0 n0 (by simp) tl htl
        simpa using this
      have hcol := readCol_some h0
      rcases Option.isSome_iff_exists.mp hcol with ⟨col, hcoleq⟩
      have hrest : (buildCols toklines rest (i0 + 1)).isSome := by
        refine ih ?_
        intro j n hj tl htl
        have := h (j + 1) n (by simpa using hj) tl htl
        have harith : i0 + (j + 1) = i0 + 1 + j := by omega
        rwa [harith] at this
      rcases Option.isSome_iff_exists.mp hrest with ⟨t', ht'⟩
      have hfin : buildCols toklines (n0 :: rest) i0 = some ((n0, col) :: t') := by
        simp only [buildCols, Option.bind_eq_bind]
        rw [hcoleq, Option.some_bind, ht', Option.some_bind]
      rw [hfin]
      rfl

theorem buildCols_idx_len {toklines : List (List String)} {names : List String} {i0 : Nat}
    {t : Table} (h : buildCols toklines names i0 = some t) {j : Nat} {n : String}
    (hj : names.get? j = some n) : ∀ tl ∈ toklines, i0 + j < tl.length := by
  obtain ⟨col, _, hcol⟩ := buildCols_get h hj
  exact readCol_isSome_len hcol

/-! ### Extremum lemmas (`np.nanargmax` / `np.nanargmin`) -/

theorem listMax_spec : ∀ {l : List ℚ} {m : ℚ}, listMax l = some m → m ∈ l ∧ ∀ v ∈ l, v ≤ m := by
  intro l
  induction l with
  | nil => intro m h; simp [listMax] at h
  | cons q rest ih =>
      intro m h
      simp only [listMax] at h
      cases hr : listMax rest with
      | none =>
          rw [hr] at h
          injection h with h
          subst h
          refine ⟨List.mem_cons_self _ _, ?_⟩
          intro v hv
          rcases List.mem_cons.mp hv with h1 | h1
          · simp [h1]
          · cases rest with
            | nil => simp at h1
            | cons a as =>
                exact absurd hr (by cases h2 : listMax as <;> simp [listMax, h2])
      | some m' =>
          rw [hr] at h
          injection h with h
          subst h
          obtain ⟨hmem, hub⟩ := ih hr
          constructor
          · rcases le_total q m' with h1 | h1
            · rw [max_eq_right h1]
              exact List.mem_cons_of_mem _ hmem
            · rw [max_eq_left h1]
              exact List.mem_cons_self _ _
          · intro v hv
            rcases List.mem_cons.mp hv with h1 | h1
            · subst h1
              exact le_max_left _ _
            · exact le_trans (hub v h1) (le_max_right _ _)

theorem listMax_isSome {l : List ℚ} (h : l ≠ []) : (listMax l).isSome := by
  cases l with
  | nil => exact absurd rfl h
  | cons a as => cases h2 : listMax as <;> simp [listMax, h2]

theorem listMin_spec : ∀ {l : List ℚ} {m : ℚ}, listMin l = some m → m ∈ l ∧ ∀ v ∈ l, m ≤ v := by
  intro l
  induction l with
  | nil => intro m h; simp [listMin] at h
  | cons q rest ih =>
      intro m h
      simp only [listMin] at h
      cases hr : listMin rest with
      | none =>
          rw [hr] at h
          injection h with h
          subst h
          refine ⟨List.mem_cons_self _ _, ?_⟩
          intro v hv
          rcases List.mem_cons.mp hv with h1 | h1
          · simp [h1]
          · cases rest with
            | nil => simp at h1
            | cons a as =>
                exact absurd hr (by cases h2 : listMin as <;> simp [listMin, h2])
      | some m' =>
          rw [hr] at h
          injection h with h
          subst h
          obtain ⟨hmem, hlb⟩ := ih hr
          constructor
          · rcases le_total q m' with h1 | h1
            · rw [min_eq_left h1]
              exact List.mem_cons_self _ _
            · rw [min_eq_right h1]
              exact List.mem_cons_of_mem _ hmem
          · intro v hv
            rcases List.mem_cons.mp hv with h1 | h1
            · subst h1
              exact min_le_left _ _
            · exact le_trans (min_le_right _ _) (hlb v h1)

theorem listMin_isSome {l : List ℚ} (h : l ≠ []) : (listMin l).isSome := by
  cases l with
  | nil => exact absurd rfl h
  | cons a as => cases h2 : listMin as <;> simp [listMin, h2]

theorem findFirstIdx_spec {p : NumVal → Bool} :
    ∀ {xs : List NumVal} {i : Nat}, findFirstIdx p xs = some i →
      ∃ v, xs.get? i = some v ∧ p v = true ∧
        ∀ k, k < i → ∀ w, xs.get? k = some w → p w = false := by
  intro xs
  induction xs with
  | nil => intro i h; simp [findFirstIdx] at h
  | cons v rest ih =>
      intro i h
      simp only [findFirstIdx] at h
      by_cases hp : p v
      · rw [if_pos hp] at h
        injection h with h
        subst h
        refine ⟨v, by simp, hp, ?_⟩
        intro k hk
        exact absurd hk (Nat.not_lt_zero k)
      · rw [if_neg hp] at h
        rcases Option.map_eq_some'.mp h with ⟨i', hi', hsucc⟩
        subst hsucc
        obtain ⟨w, hw, hpw, hleast⟩ := ih hi'
        refine ⟨w, by simpa using hw, hpw, ?_⟩
        intro k hk w' hw'
        cases k with
        | zero =>
            simp only [List.get?_cons_zero] at hw'
            injection hw' with hw'
            subst hw'
            exact Bool.not_eq_true _ ▸ (by simpa using hp)
        | succ k' =>
            apply hleast k' (by omega)
            simpa using hw'

theorem findFirstIdx_isSome {p : NumVal → Bool} :
    ∀ {xs : List NumVal}, (∃ v ∈ xs, p v = true) → (findFirstIdx p xs).isSome := by
  intro xs
  induction xs with
  | nil =>
      intro h
      rcases h with ⟨v, hv, _⟩
      simp at hv
  | cons v0 rest ih =>
      intro h
      rcases h with ⟨v, hv, hpv⟩
      simp only [findFirstIdx]
      by_cases hp : p v0
      · rw [if_pos hp]
        rfl
      · rw [if_neg hp]
        rcases List.mem_cons.mp hv with h1 | h1
        · subst h1
          exact absurd hpv hp
        · have := ih ⟨v, h1, hpv⟩
          rcases Option.isSome_iff_exists.mp this with ⟨i, hi⟩
          rw [hi]
          rfl

theorem numsOf_mem {q : ℚ} {xs : List NumVal} : q ∈ numsOf xs ↔ NumVal.val q ∈ xs := by
  simp only [numsOf, List.mem_filterMap]
  constructor
  · rintro ⟨v, hv, hq⟩
    cases v with
    | nan => simp at hq
    | val r =>
        simp only [Option.some.injEq] at hq
        subst hq
        exact hv
  · intro h
    exact ⟨NumVal.val q, h, rfl⟩

theorem colNums_get : ∀ {col : List Value} {nums : List NumVal}, colNums col = some nums →
    nums.length = col.length ∧
      ∀ {k : Nat} {x : NumVal}, nums.get? k = some x → col.get? k = some (Value.num x) := by
  intro col
  induction col with
  | nil =>
      intro nums h
      simp only [colNums] at h
      injection h with h
      subst h
      exact ⟨rfl, by intro k x h; simp at h⟩
  | cons v rest ih =>
      intro nums h
      cases v with
      | str s => simp [colNums] at h
      | num x0 =>
          simp only [colNums] at h
          rcases Option.map_eq_some'.mp h with ⟨l, hl, heq⟩
          subst heq
          obtain ⟨hlen, hget⟩ := ih hl
          refine ⟨by simp [hlen], ?_⟩
          intro k x hk
          cases k with
          | zero =>
              simp only [List.get?_cons_zero] at hk ⊢
              injection hk with hk
              rw [← hk]
          | succ k' =>
              simp only [List.get?_cons_succ] at hk ⊢
              exact hget hk

/-- `np.nanargmax` semantics: a returned index holds a non-NaN value that is
an upper bound of every non-NaN entry, and no earlier index holds that
value. -/
theorem nanargmax_spec {xs : List NumVal} {i : Nat} (h : nanargmax xs = some i) :
    ∃ q, xs.get? i = some (NumVal.val q) ∧
      (∀ k v, xs.get? k = some (NumVal.val v) → v ≤ q) ∧
      (∀ k, k < i → xs.get? k ≠ some (NumVal.val q)) := by
  unfold nanargmax at h
  cases hm : listMax (numsOf xs) with
  | none => rw [hm] at h; simp at h
  | some m =>
      rw [hm] at h
      obtain ⟨w, hw, hpw, hleast⟩ := findFirstIdx_spec h
      have hwm : w = NumVal.val m := by
        have := of_decide_eq_true hpw
        exact this
      subst hwm
      refine ⟨m, hw, ?_, ?_⟩
      · intro k v hk
        have hv : v ∈ numsOf xs := numsOf_mem.mpr (List.get?_mem hk)
        exact (listMax_spec hm).2 v hv
      · intro k hk hbad
        have := hleast k hk _ hbad
        simp at this

/-- `np.nanargmax` is defined whenever some entry is non-NaN. -/
theorem nanargmax_isSome {xs : List NumVal}
    (h : ∃ k q, xs.get? k = some (NumVal.val q)) : (nanargmax xs).isSome := by
  obtain ⟨k, q, hk⟩ := h
  have hmem : NumVal.val q ∈ xs := List.get?_mem hk
  have hne : numsOf xs ≠ [] := by
    intro hnil
    have : q ∈ numsOf xs := numsOf_mem.mpr hmem
    rw [hnil] at this
    simp at this
  rcases Option.isSome_iff_exists.mp (listMax_isSome hne) with ⟨m, hm⟩
  have hmmem : NumVal.val m ∈ xs := numsOf_mem.mp (listMax_spec hm).1
  unfold nanargmax
  rw [hm]
  exact findFirstIdx_isSome ⟨NumVal.val m, hmmem, by simp⟩

/-- `np.nanargmin` semantics: a returned index holds a non-NaN value that is
a lower bound of every non-NaN entry, and no earlier index holds that
value. -/
theorem nanargmin_spec {xs : List NumVal} {i : Nat} (h : nanargmin xs = some i) :
    ∃ q, xs.get? i = some (NumVal.val q) ∧
      (∀ k v, xs.get? k = some (NumVal.val v) → q ≤ v) ∧
      (∀ k, k < i → xs.get? k ≠ some (NumVal.val q)) := by
  unfold nanargmin at h
  cases hm : listMin (numsOf xs) with
  | none => rw [hm] at h; simp at h
  | some m =>
      rw [hm] at h
      obtain ⟨w, hw, hpw, hleast⟩ := findFirstIdx_spec h
      have hwm : w = NumVal.val m := by
        have := of_decide_eq_true hpw
        exact this
      subst hwm
      refine ⟨m, hw, ?_, ?_⟩
      · intro k v hk
        have hv : v ∈ numsOf xs := numsOf_mem.mpr (List.get?_mem hk)
        exact (listMin_spec hm).2 v hv
      · intro k hk hbad
        have := hleast k hk _ hbad
        simp at this

/-- `np.nanargmin` is defined whenever some entry is non-NaN. -/
theorem nanargmin_isSome {xs : List NumVal}
    (h : ∃ k q, xs.get? k = some (NumVal.val q)) : (nanargmin xs).isSome := by
  obtain ⟨k, q, hk⟩ := h
  have hmem : NumVal.val q ∈ xs := List.get?_mem hk
  have hne : numsOf xs ≠ [] := by
    intro hnil
    have : q ∈ numsOf xs := numsOf_mem.mpr hmem
    rw [hnil] at this
    simp at this
  rcases Option.isSome_iff_exists.mp (listMin_isSome hne) with ⟨m, hm⟩
  have hmmem : NumVal.val m ∈ xs := numsOf_mem.mp (listMin_spec hm).1
  unfold nanargmin
  rw [hm]
  exact findFirstIdx_isSome ⟨NumVal.val m, hmmem, by simp⟩

/-! ### String concatenation helpers -/

theorem empty_append_str (s : String) : "" ++ s = s := by
  cases s
  rfl

theorem append_assoc_str (a b c : String) : a ++ b ++ c = a ++ (b ++ c) := by
  cases a
  cases b
  cases c
  show String.mk _ = String.mk _
  rw [List.append_assoc]

theorem concatAll_cons (s : String) (l : List String) :
    concatAll (s :: l) = s ++ concatAll l := rfl

/-! ### Run-level equation lemmas -/

theorem runChecklist_nil {files : Files} {prop review : String} {reg : Registry} :
    runChecklist files prop review [] reg = ("", reg, true) := rfl

theorem runChecklist_cons {files : Files} {prop review : String} {reg : Registry}
    {m : String} {rest : List String} :
    runChecklist files prop review (m :: rest) reg =
      match (stepChecklist files prop review reg m).1.2 with
      | false => ((stepChecklist files prop review reg m).1.1,
          (stepChecklist files prop review reg m).2, false)
      | true =>
          ((stepChecklist files prop review reg m).1.1 ++
            (runChecklist files prop review rest (stepChecklist files prop review reg m).2).1,
           (runChecklist files prop review rest (stepChecklist files prop review reg m).2).2.1,
           (runChecklist files prop review rest (stepChecklist files prop review reg m).2).2.2) :=
  rfl

theorem runChecklist_cons_fail {files : Files} {prop review : String} {reg : Registry}
    {m : String} {rest : List String}
    (h : (stepChecklist files prop review reg m).1.2 = false) :
    runChecklist files prop review (m :: rest) reg =
      ((stepChecklist files prop review reg m).1.1,
        (stepChecklist files prop review reg m).2, false) := by
  rw [runChecklist_cons, h]

theorem runChecklist_cons_ok_fst {files : Files} {prop review : String} {reg : Registry}
    {m : String} {rest : List String}
    (h : (stepChecklist files prop review reg m).1.2 = true) :
    (runChecklist files prop review (m :: rest) reg).1 =
      (stepChecklist files prop review reg m).1.1 ++
        (runChecklist files prop review rest (stepChecklist files prop review reg m).2).1 := by
  rw [runChecklist_cons, h]

theorem runChecklist_cons_ok_reg {files : Files} {prop review : String} {reg : Registry}
    {m : String} {rest : List String}
    (h : (stepChecklist files prop review reg m).1.2 = true) :
    (runChecklist files prop review (m :: rest) reg).2.1 =
      (runChecklist files prop review rest (stepChecklist files prop review reg m).2).2.1 := by
  rw [runChecklist_cons, h]

theorem runChecklist_cons_ok_ok {files : Files} {prop review : String} {reg : Registry}
    {m : String} {rest : List String}
    (h : (stepChecklist files prop review reg m).1.2 = true) :
    (runChecklist files prop review (m :: rest) reg).2.2 =
      (runChecklist files prop review rest (stepChecklist files prop review reg m).2).2.2 := by
  rw [runChecklist_cons, h]

theorem runSections_cons {files : Files} {prop review : String} {reg : Registry}
    {m : String} {rest : List String} :
    runSections files prop review (m :: rest) reg =
      match (stepChecklist files prop review reg m).1.2 with
      | false => none
      | true =>
          (runSections files prop review rest (stepChecklist files prop review reg m).2).map
            (fun ss => (stepChecklist files prop review reg m).1.1 :: ss) := rfl

theorem stepChecklist_spec {files : Files} {prop review : String} {reg : Registry} {m : String}
    (h : (stepChecklist files prop review reg m).1.2 = true) :
    ∃ sfx info pd rd,
      alookup m fileparts = some sfx ∧ alookup m reg = some info ∧
      (files (prop ++ sfx)).bind (readfile info.names) = some pd ∧
      (files (review ++ sfx)).bind (readfile info.names) = some rd ∧
      (stepChecklist files prop review reg m).1 =
        writeReportDataW pd rd info.names.tail info.title ∧
      (stepChecklist files prop review reg m).2 = setNames reg m info.names.tail := by
  cases h1 : alookup m fileparts with
  | none => simp only [stepChecklist, h1] at h; exact Bool.noConfusion h
  | some sfx =>
      cases h2 : alookup m reg with
      | none => simp only [stepChecklist, h1, h2] at h; exact Bool.noConfusion h
      | some info =>
          cases h3 : (files (prop ++ sfx)).bind (readfile info.names) with
          | none => simp only [stepChecklist, h1, h2, h3] at h; exact Bool.noConfusion h
          | some pd =>
              cases h4 : (files (review ++ sfx)).bind (readfile info.names) with
              | none =>
                  simp only [stepChecklist, h1, h2, h3, h4] at h
                  exact Bool.noConfusion h
              | some rd =>
                  refine ⟨sfx, info, pd, rd, rfl, rfl, h3, h4, ?_, ?_⟩
                  · simp only [stepChecklist, h1, h2, h3, h4]
                  · simp only [stepChecklist, h1, h2, h3, h4]

theorem runProp_nil {files : Files} {prop : String} {reg : Registry} {b : Bool} :
    runProp files prop [] reg b = ("", reg, true) := rfl

theorem runProp_cons {files : Files} {prop : String} {m : String} {rest : List String}
    {reg : Registry} {b : Bool} :
    runProp files prop (m :: rest) reg b =
      match (propGroupW files prop reg b m).2 with
      | false => ((propGroupW files prop reg b m).1, reg, false)
      | true =>
          ((propGroupW files prop reg b m).1 ++ (runProp files prop rest reg false).1,
           (runProp files prop rest reg false).2.1,
           (runProp files prop rest reg false).2.2) := rfl

/-- The ending-configuration writer never changes the registry (its
`names[1:]` is a copy, not an aliased pop). -/
theorem runProp_reg {files : Files} {prop : String} :
    ∀ (order : List String) (reg : Registry) (b : Bool),
      (runProp files prop order reg b).2.1 = reg := by
  intro order
  induction order with
  | nil => intro reg b; rfl
  | cons m rest ih =>
      intro reg b
      rw [runProp_cons]
      cases hg : (propGroupW files prop reg b m).2 with
      | false => rfl
      | true => simpa using ih reg false

/-- A model whose group flag is true produces the complete group. -/
theorem propGroup_eq_some {files : Files} {prop : String} {reg : Registry} {b : Bool}
    {m : String} (h : (propGroupW files prop reg b m).2 = true) :
    propGroup files prop reg b m = some (propGroupW files prop reg b m).1 := by
  unfold propGroup
  cases hg : propGroupW files prop reg b m with
  | mk s fl =>
      rw [hg] at h
      cases fl with
      | false => exact Bool.noConfusion h
      | true => rfl

theorem alookup_cons {β : Type} {k a : String} {b : β} {l : List (String × β)} :
    alookup k ((a, b) :: l) = if a = k then some b else alookup k l := rfl

theorem setNames_cons {a : String} {info : ModelInfo} {rest : Registry} {m : String}
    {ns : List String} :
    setNames ((a, info) :: rest) m ns =
      (if a = m then (a, { info with names := ns }) else (a, info)) :: setNames rest m ns := by
  simp only [setNames, List.map_cons]

theorem alookup_setNames {m k : String} {ns : List String} :
    ∀ {reg : Registry},
      alookup k (setNames reg m ns) =
        if k = m then (alookup k reg).map (fun i => { i with names := ns })
        else alookup k reg := by
  intro reg
  induction reg with
  | nil =>
      simp only [setNames, List.map_nil, alookup]
      split <;> rfl
  | cons p rest ih =>
      obtain ⟨a, info⟩ := p
      rw [setNames_cons]
      by_cases ham : a = m
      · rw [if_pos ham]
        simp only [alookup_cons]
        by_cases hak : a = k
        · simp only [if_pos hak]
          have hkm : k = m := by rw [← hak, ham]
          rw [if_pos hkm]
          rfl
        · simp only [if_neg hak]
          exact ih
      · rw [if_neg ham]
        simp only [alookup_cons]
        by_cases hak : a = k
        · simp only [if_pos hak]
          have hkm : ¬k = m := by rw [← hak]; exact ham
          rw [if_neg hkm]
        · simp only [if_neg hak]
          exact ih

/-- A successful report run yields exactly one section per listed model, in
list order, and the report is their concatenation. -/
theorem runChecklist_sections {files : Files} {prop review : String} :
    ∀ {order : List String} {reg : Registry},
      (runChecklist files prop review order reg).2.2 = true →
      ∃ ss : List String, runSections files prop review order reg = some ss ∧
        ss.length = order.length ∧
        (runChecklist files prop review order reg).1 = concatAll ss := by
  intro order
  induction order with
  | nil => intro reg _; exact ⟨[], rfl, rfl, rfl⟩
  | cons m rest ih =>
      intro reg hok
      cases hst : (stepChecklist files prop review reg m).1.2 with
      | false =>
          rw [runChecklist_cons_fail hst] at hok
          exact Bool.noConfusion hok
      | true =>
          rw [runChecklist_cons_ok_ok hst] at hok
          obtain ⟨ss, hss, hlen, hout⟩ := ih hok
          refine ⟨(stepChecklist files prop review reg m).1.1 :: ss, ?_, by simp [hlen], ?_⟩
          · rw [runSections_cons, hst, hss]
            rfl
          · rw [runChecklist_cons_ok_fst hst, hout, concatAll_cons]

/-- The ending-configuration run writes the complete groups of an initial
segment of the model list, in order, followed — when a model fails — by the
partial text that model wrote before its error; the segment is the whole list
exactly when the run succeeds. -/
theorem runProp_sections {files : Files} {prop : String} :
    ∀ {order : List String} {reg : Registry} {b : Bool},
      ∃ k, k ≤ order.length ∧
        ∃ gs, propSections files prop (order.take k) reg b = some gs ∧
          (((runProp files prop order reg b).2.2 = true ∧ k = order.length ∧
            (runProp files prop order reg b).1 = concatAll gs) ∨
           (∃ m, order.get? k = some m ∧
             (propGroupW files prop reg (b && decide (k = 0)) m).2 = false ∧
             (runProp files prop order reg b).1 =
               concatAll gs ++ (propGroupW files prop reg (b && decide (k = 0)) m).1 ∧
             (runProp files prop order reg b).2.2 = false)) := by
  intro order
  induction order with
  | nil =>
      intro reg b
      exact ⟨0, by simp, [], rfl, Or.inl ⟨rfl, rfl, rfl⟩⟩
  | cons m rest ih =>
      intro reg b
      cases hg : (propGroupW files prop reg b m).2 with
      | false =>
          refine ⟨0, by simp, [], rfl, Or.inr ⟨m, rfl, ?_, ?_, ?_⟩⟩
          · simpa using hg
          · rw [runProp_cons, hg]
            show (propGroupW files prop reg b m).1 =
              concatAll [] ++ (propGroupW files prop reg (b && decide (0 = 0)) m).1
            rw [show (b && decide (0 = 0)) = b by simp]
            exact (empty_append_str _).symm
          · rw [runProp_cons, hg]
      | true =>
          obtain ⟨k, hk, gs, hgs, hbranch⟩ := @ih reg false
          refine ⟨k + 1, by simpa using hk, (propGroupW files prop reg b m).1 :: gs, ?_, ?_⟩
          · simp only [List.take_succ_cons, propSections, Option.bind_eq_bind]
            rw [propGroup_eq_some hg, Option.some_bind, hgs, Option.some_bind]
          · rcases hbranch with ⟨hok, hkeq, hout⟩ | ⟨mf, hget, hflag, hout, hfail⟩
            · left
              refine ⟨?_, by simp [hkeq], ?_⟩
              · rw [runProp_cons, hg]
                exact hok
              · rw [runProp_cons, hg, hout, concatAll_cons]
            · right
              have hbf : (b && decide (k + 1 = 0)) = false := by simp
              have hff : (false && decide (k = 0)) = false := by simp
              rw [hff] at hflag hout
              refine ⟨mf, by simpa using hget, ?_, ?_, ?_⟩
              · rw [hbf]
                exact hflag
              · rw [runProp_cons, hg, hout, hbf, concatAll_cons]
                exact (append_assoc_str _ _ _).symm
              · rw [runProp_cons, hg]
                exact hfail

/-- When a report run fails, there is a first failing model: every model
before it succeeded and wrote its complete section, the failing model wrote
only the prefix of its section preceding the error, and later models wrote
nothing. -/
theorem runChecklist_failure {files : Files} {prop review : String} :
    ∀ {order : List String} {reg : Registry},
      (runChecklist files prop review order reg).2.2 = false →
      ∃ pre m post, order = pre ++ m :: post ∧
        (runChecklist files prop review pre reg).2.2 = true ∧
        (stepChecklist files prop review
          ((runChecklist files prop review pre reg).2.1) m).1.2 = false ∧
        (runChecklist files prop review order reg).1 =
          (runChecklist files prop review pre reg).1 ++
            (stepChecklist files prop review
              ((runChecklist files prop review pre reg).2.1) m).1.1 := by
  intro order
  induction order with
  | nil =>
      intro reg h
      rw [runChecklist_nil] at h
      exact Bool.noConfusion h
  | cons m0 rest ih =>
      intro reg h
      cases hst : (stepChecklist files prop review reg m0).1.2 with
      | false =>
          refine ⟨[], m0, rest, rfl, rfl, ?_, ?_⟩
          · rw [runChecklist_nil]
            exact hst
          · rw [runChecklist_cons_fail hst, runChecklist_nil]
            exact (empty_append_str _).symm
      | true =>
          rw [runChecklist_cons_ok_ok hst] at h
          obtain ⟨pre, m, post, horder, hpre, hstep, hout⟩ := ih h
          refine ⟨m0 :: pre, m, post, by rw [horder]; rfl, ?_, ?_, ?_⟩
          · rw [runChecklist_cons_ok_ok hst]
            exact hpre
          · rw [runChecklist_cons_ok_reg hst]
            exact hstep
          · rw [runChecklist_cons_ok_fst hst, hout, runChecklist_cons_ok_fst hst,
              runChecklist_cons_ok_reg hst]
            exact (append_assoc_str _ _ _).symm

/-- Evaluation of one Max/Min Values line once all its pieces are known. -/
theorem extLine_eval {t : Table} {name : String} {col tcol : List Value} {nums : List NumVal}
    {sel : List NumVal → Option Nat} {i : Nat} {q : ℚ} {tv : Value}
    (hop : isOpaque name = false)
    (hc : alookup name t = some col) (hn : colNums col = some nums)
    (hi : sel nums = some i) (hcv : col.get? i = some (Value.num (NumVal.val q)))
    (ht : alookup "Time" t = some tcol) (htv : tcol.get? i = some tv) :
    extLine t sel name =
      some ("    " ++ name ++ ": " ++ fixed6 q ++ "  (" ++ fmtS tv ++ ")\n") := by
  unfold extLine
  rw [if_neg (by simp [hop])]
  simp only [Option.bind_eq_bind]
  rw [hc, Option.some_bind, hn, Option.some_bind, hi, Option.some_bind, hcv, Option.some_bind,
    show fmtF (Value.num (NumVal.val q)) = some (fixed6 q) from rfl, Option.some_bind,
    ht, Option.some_bind, htv, Option.some_bind]

/-- C6: parse discards the first line unconditionally — the result does not
depend on the header's content — and on success the table holds one column
per schema name, each of length equal to the file's line count minus one. -/
theorem C6_header_and_lengths (names : List String) (h1 h2 : String)
    (datalines : List String) (t : Table)
    (hp : readfile names (h1 :: datalines) = some t) :
    readfile names (h2 :: datalines) = some t ∧
      ∀ n ∈ names, ∃ col, alookup n t = some col ∧
        col.length = (h1 :: datalines).length - 1 := by
  have hb : buildCols (datalines.map tokens) names 0 = some t := hp
  refine ⟨hb, ?_⟩
  intro n hn
  have hfst : t.map Prod.fst = names := buildCols_fst hb
  have hsome : (alookup n t).isSome := alookup_isSome_of_mem_fst (by rw [hfst]; exact hn)
  rcases Option.isSome_iff_exists.mp hsome with ⟨col, hcol⟩
  have hmem : (n, col) ∈ t := alookup_mem hcol
  obtain ⟨idx, hrc⟩ := buildCols_cols hb (n, col) hmem
  have hlen : col.length = (datalines.map tokens).length := readCol_length hrc
  refine ⟨col, hcol, ?_⟩
  simpa using hlen

/-- C6 witness: a two-column file with one data line parses to one-entry
columns, with any header. -/
theorem C6_witness :
    readfile ["Time", "X"] ["hdr", "t1 2.5"] =
        some [("Time", [Value.str "t1"]), ("X", [Value.num (NumVal.val (mkRat 5 2))])] ∧
      (readfile ["Time", "X"] ["a completely different header", "t1 2.5"] =
          some [("Time", [Value.str "t1"]), ("X", [Value.num (NumVal.val (mkRat 5 2))])] ∧
        ∀ n ∈ ["Time", "X"], ∃ col,
          alookup n [("Time", [Value.str "t1"]), ("X", [Value.num (NumVal.val (mkRat 5 2))])] =
              some col ∧
            col.length = (["hdr", "t1 2.5"] : List String).length - 1) :=
  ⟨by decide,
   C6_header_and_lengths ["Time", "X"] "hdr" "a completely different header" ["t1 2.5"]
     [("Time", [Value.str "t1"]), ("X", [Value.num (NumVal.val (mkRat 5 2))])] (by decide)⟩

/-- C7: parsing keeps exactly the columns whose names match the fixed opaque
list case-insensitively as raw strings, and parses every other column as
doubles. -/
theorem C7_column_type_policy (names lines : List String) (t : Table)
    (hp : readfile names lines = some t) :
    (∀ n col, (n, col) ∈ t →
      (isOpaque n = true → ∀ v ∈ col, ∃ s, v = Value.str s) ∧
      (isOpaque n = false → ∀ v ∈ col, ∃ x, v = Value.num x)) ∧
    (∀ n, isOpaque n = true ↔ lowerStr n ∈ opaqueNames) := by
  constructor
  · intro n col hmem
    cases lines with
    | nil => exact absurd hp (by simp [readfile])
    | cons hd dl =>
        have hb : buildCols (dl.map tokens) names 0 = some t := hp
        obtain ⟨idx, hrc⟩ := buildCols_cols hb (n, col) hmem
        have hty := readCol_types hrc
        exact ⟨fun hop v hv => (hty v hv).1 hop, fun hop v hv => (hty v hv).2 hop⟩
  · intro n
    simp [isOpaque]

/-- C7 witness: a file mixing opaque (Time, SI) and numeric (X) columns. -/
theorem C7_witness :
    readfile ["Time", "SI", "X"] ["hdr", "t1 ACIS-S 1.5"] =
        some [("Time", [Value.str "t1"]), ("SI", [Value.str "ACIS-S"]),
          ("X", [Value.num (NumVal.val (mkRat 3 2))])] ∧
      ((∀ n col,
        (n, col) ∈ [("Time", [Value.str "t1"]), ("SI", [Value.str "ACIS-S"]),
          ("X", [Value.num (NumVal.val (mkRat 3 2))])] →
        (isOpaque n = true → ∀ v ∈ col, ∃ s, v = Value.str s) ∧
        (isOpaque n = false → ∀ v ∈ col, ∃ x, v = Value.num x)) ∧
      (∀ n, isOpaque n = true ↔ lowerStr n ∈ opaqueNames)) :=
  ⟨by decide,
   C7_column_type_policy ["Time", "SI", "X"] ["hdr", "t1 ACIS-S 1.5"]
     [("Time", [Value.str "t1"]), ("SI", [Value.str "ACIS-S"]),
       ("X", [Value.num (NumVal.val (mkRat 3 2))])] (by decide)⟩

/-- C10: parsing preserves row order and schema position: entry `i` of the
column at schema position `j` is built from token `j` of data line `i` (the
line at index `i` after the discarded header). -/
theorem C10_row_order (names : List String) (hdr : String) (datalines : List String)
    (t : Table) (hp : readfile names (hdr :: datalines) = some t)
    (j : Nat) (n : String) (hj : names.get? j = some n) :
    ∃ col, t.get? j = some (n, col) ∧
      ∀ i line, datalines.get? i = some line →
        ∃ tok, (tokens line).get? j = some tok ∧
          ((isOpaque n = true ∧ col.get? i = some (Value.str tok)) ∨
           (isOpaque n = false ∧
             ∃ x, parseDouble tok = some x ∧ col.get? i = some (Value.num x))) := by
  have hb : buildCols (datalines.map tokens) names 0 = some t := hp
  obtain ⟨col, hcolget, hrc⟩ := buildCols_get hb hj
  rw [Nat.zero_add] at hrc
  refine ⟨col, hcolget, ?_⟩
  intro i line hline
  have htl : (datalines.map tokens).get? i = some (tokens line) := by
    rw [List.get?_map, hline]
    rfl
  obtain ⟨tok, htok, hres⟩ := readCol_get hrc htl
  exact ⟨tok, htok, hres⟩

/-- C10 witness: with two data lines, row 0 of column 1 comes from line 0 and
row 1 from line 1. -/
theorem C10_witness :
    readfile ["Time", "A"] ["hdr", "t1 2.5", "t2 3.5"] =
        some [("Time", [Value.str "t1", Value.str "t2"]),
          ("A", [Value.num (NumVal.val (mkRat 5 2)), Value.num (NumVal.val (mkRat 7 2))])] ∧
      ∃ col,
        ([("Time", [Value.str "t1", Value.str "t2"]),
            ("A", [Value.num (NumVal.val (mkRat 5 2)),
              Value.num (NumVal.val (mkRat 7 2))])] : Table).get? 1 = some ("A", col) ∧
          ∀ i line, (["t1 2.5", "t2 3.5"] : List String).get? i = some line →
            ∃ tok, (tokens line).get? 1 = some tok ∧
              ((isOpaque "A" = true ∧ col.get? i = some (Value.str tok)) ∨
               (isOpaque "A" = false ∧
                 ∃ x, parseDouble tok = some x ∧ col.get? i = some (Value.num x))) :=
  ⟨by decide,
   C10_row_order ["Time", "A"] "hdr" ["t1 2.5", "t2 3.5"]
     [("Time", [Value.str "t1", Value.str "t2"]),
       ("A", [Value.num (NumVal.val (mkRat 5 2)), Value.num (NumVal.val (mkRat 7 2))])]
     (by decide) 1 "A" (by decide)⟩

/-- C5 counterexample: a data line with MORE tokens than the schema has
columns parses successfully — the extra token is silently ignored — refuting
the claim that parsing fails for every token-count mismatch. -/
theorem C5_counterexample :
    readfile ["Time", "X"] ["hdr", "t1 1.0 99"] =
      some [("Time", [Value.str "t1"]), ("X", [Value.num (NumVal.val 1)])] := by
  decide

/-- C5 (amended): a data line with fewer tokens than the schema's column
count makes the parse fail (IndexError); a line with at least as many tokens
as columns (every numeric token parsable) parses successfully, tokens beyond
the schema's count being silently ignored. -/
theorem C5_amended_alignment :
    (∀ (names : List String) (hdr : String) (datalines : List String),
      (∃ l ∈ datalines, (tokens l).length < names.length) →
      readfile names (hdr :: datalines) = none) ∧
    (∀ (names : List String) (hdr : String) (datalines : List String),
      (∀ l ∈ datalines, ∀ j n, names.get? j = some n →
        ∃ tok, (tokens l).get? j = some tok ∧
          (isOpaque n = true ∨ (parseDouble tok).isSome)) →
      (readfile names (hdr :: datalines)).isSome) := by
  constructor
  · intro names hdr datalines hshort
    obtain ⟨l, hl, hlen⟩ := hshort
    cases hres : readfile names (hdr :: datalines) with
    | none => rfl
    | some t =>
        exfalso
        have hb : buildCols (datalines.map tokens) names 0 = some t := hres
        have hpos : 0 < names.length := lt_of_le_of_lt (Nat.zero_le _) hlen
        have hidx : names.length - 1 < names.length := by omega
        obtain ⟨n, hn⟩ : ∃ n, names.get? (names.length - 1) = some n :=
          ⟨names.get ⟨names.length - 1, hidx⟩, List.get?_eq_get hidx⟩
        have hmem : tokens l ∈ datalines.map tokens := List.mem_map_of_mem tokens hl
        have := buildCols_idx_len hb hn (tokens l) hmem
        omega
  · intro names hdr datalines h
    have hres : (buildCols (datalines.map tokens) names 0).isSome := by
      apply buildCols_some
      intro j n hj tl htl
      rcases List.mem_map.mp htl with ⟨l, hl, rfl⟩
      have := h l hl j n hj
      simpa using this
    exact hres

/-- C5 witness: a short line fails, a long line succeeds. -/
theorem C5_amended_witness :
    readfile ["Time", "X", "Y"] ["hdr", "t1 1.0"] = none ∧
      (readfile ["Time", "X"] ["hdr", "t1 1.0 99 extra"]).isSome := by
  constructor
  · exact C5_amended_alignment.1 ["Time", "X", "Y"] "hdr" ["t1 1.0"]
      ⟨"t1 1.0", by decide, by decide⟩
  · apply C5_amended_alignment.2 ["Time", "X"] "hdr" ["t1 1.0 99 extra"]
    intro l hl j n hj
    have hl2 : l = "t1 1.0 99 extra" := by simpa using hl
    subst hl2
    match j, hj with
    | 0, hj =>
        have hn : n = "Time" := by simpa using hj.symm
        subst hn
        exact ⟨"t1", by decide, Or.inl (by decide)⟩
    | 1, hj =>
        have hn : n = "X" := by simpa using hj.symm
        subst hn
        exact ⟨"1.0", by decide, Or.inr (by decide)⟩
    | j + 2, hj =>
        exact absurd hj (by simp)

/-- C1: for a non-opaque review column holding at least one non-NaN value,
the Max Values line reports the maximum over all non-NaN entries together
with the Time value at the lowest index achieving it, and the Min Values line
symmetrically reports the minimum; NaN entries are ignored for both. -/
theorem C1_max_min_lines (review : Table) (name : String) (col tcol : List Value)
    (nums : List NumVal)
    (hc : alookup name review = some col) (ht : alookup "Time" review = some tcol)
    (hn : colNums col = some nums) (hop : isOpaque name = false)
    (hlen : col.length ≤ tcol.length)
    (hne : ∃ k q, nums.get? k = some (NumVal.val q)) :
    (∃ i q tv, nanargmax nums = some i ∧
      nums.get? i = some (NumVal.val q) ∧
      (∀ k v, nums.get? k = some (NumVal.val v) → v ≤ q) ∧
      (∀ k, k < i → nums.get? k ≠ some (NumVal.val q)) ∧
      tcol.get? i = some tv ∧
      extLine review nanargmax name =
        some ("    " ++ name ++ ": " ++ fixed6 q ++ "  (" ++ fmtS tv ++ ")\n")) ∧
    (∃ i q tv, nanargmin nums = some i ∧
      nums.get? i = some (NumVal.val q) ∧
      (∀ k v, nums.get? k = some (NumVal.val v) → q ≤ v) ∧
      (∀ k, k < i → nums.get? k ≠ some (NumVal.val q)) ∧
      tcol.get? i = some tv ∧
      extLine review nanargmin name =
        some ("    " ++ name ++ ": " ++ fixed6 q ++ "  (" ++ fmtS tv ++ ")\n")) := by
  obtain ⟨hnl, hng⟩ := colNums_get hn
  constructor
  · rcases Option.isSome_iff_exists.mp (nanargmax_isSome hne) with ⟨i, hi⟩
    obtain ⟨q, hq, hub, hfirst⟩ := nanargmax_spec hi
    have hcolv : col.get? i = some (Value.num (NumVal.val q)) := hng hq
    have hilt : i < nums.length := by
      have := List.get?_eq_some.mp hq
      exact this.1
    have hitcol : i < tcol.length := by omega
    refine ⟨i, q, tcol.get ⟨i, hitcol⟩, hi, hq, hub, hfirst, List.get?_eq_get hitcol, ?_⟩
    exact extLine_eval hop hc hn hi hcolv ht (List.get?_eq_get hitcol)
  · rcases Option.isSome_iff_exists.mp (nanargmin_isSome hne) with ⟨i, hi⟩
    obtain ⟨q, hq, hlb, hfirst⟩ := nanargmin_spec hi
    have hcolv : col.get? i = some (Value.num (NumVal.val q)) := hng hq
    have hilt : i < nums.length := by
      have := List.get?_eq_some.mp hq
      exact this.1
    have hitcol : i < tcol.length := by omega
    refine ⟨i, q, tcol.get ⟨i, hitcol⟩, hi, hq, hlb, hfirst, List.get?_eq_get hitcol, ?_⟩
    exact extLine_eval hop hc hn hi hcolv ht (List.get?_eq_get hitcol)

/-- C1 witness: the column [1.0, NaN, 5.0, 3.0] has its maximum 5.0 at index
2 and its minimum 1.0 at index 0, NaN ignored, and the lines report the Time
values at those indices. -/
theorem C1_witness :
    nanargmax [NumVal.val 1, NumVal.nan, NumVal.val 5, NumVal.val 3] = some 2 ∧
    nanargmin [NumVal.val 1, NumVal.nan, NumVal.val 5, NumVal.val 3] = some 0 ∧
    ((∃ i q tv, nanargmax [NumVal.val 1, NumVal.nan, NumVal.val 5, NumVal.val 3] = some i ∧
      ([NumVal.val 1, NumVal.nan, NumVal.val 5, NumVal.val 3] : List NumVal).get? i =
          some (NumVal.val q) ∧
      (∀ k v, ([NumVal.val 1, NumVal.nan, NumVal.val 5, NumVal.val 3] : List NumVal).get? k =
          some (NumVal.val v) → v ≤ q) ∧
      (∀ k, k < i → ([NumVal.val 1, NumVal.nan, NumVal.val 5, NumVal.val 3] : List NumVal).get? k ≠
          some (NumVal.val q)) ∧
      ([Value.str "t0", Value.str "t1", Value.str "t2", Value.str "t3"] : List Value).get? i =
          some tv ∧
      extLine [("Time", [Value.str "t0", Value.str "t1", Value.str "t2", Value.str "t3"]),
          ("A", [Value.num (NumVal.val 1), Value.num NumVal.nan, Value.num (NumVal.val 5),
            Value.num (NumVal.val 3)])] nanargmax "A" =
        some ("    " ++ "A" ++ ": " ++ fixed6 q ++ "  (" ++ fmtS tv ++ ")\n")) ∧
    (∃ i q tv, nanargmin [NumVal.val 1, NumVal.nan, NumVal.val 5, NumVal.val 3] = some i ∧
      ([NumVal.val 1, NumVal.nan, NumVal.val 5, NumVal.val 3] : List NumVal).get? i =
          some (NumVal.val q) ∧
      (∀ k v, ([NumVal.val 1, NumVal.nan, NumVal.val 5, NumVal.val 3] : List NumVal).get? k =
          some (NumVal.val v) → q ≤ v) ∧
      (∀ k, k < i → ([NumVal.val 1, NumVal.nan, NumVal.val 5, NumVal.val 3] : List NumVal).get? k ≠
          some (NumVal.val q)) ∧
      ([Value.str "t0", Value.str "t1", Value.str "t2", Value.str "t3"] : List Value).get? i =
          some tv ∧
      extLine [("Time", [Value.str "t0", Value.str "t1", Value.str "t2", Value.str "t3"]),
          ("A", [Value.num (NumVal.val 1), Value.num NumVal.nan, Value.num (NumVal.val 5),
            Value.num (NumVal.val 3)])] nanargmin "A" =
        some ("    " ++ "A" ++ ": " ++ fixed6 q ++ "  (" ++ fmtS tv ++ ")\n"))) :=
  ⟨by decide, by decide,
   C1_max_min_lines
     [("Time", [Value.str "t0", Value.str "t1", Value.str "t2", Value.str "t3"]),
       ("A", [Value.num (NumVal.val 1), Value.num NumVal.nan, Value.num (NumVal.val 5),
         Value.num (NumVal.val 3)])]
     "A"
     [Value.num (NumVal.val 1), Value.num NumVal.nan, Value.num (NumVal.val 5),
       Value.num (NumVal.val 3)]
     [Value.str "t0", Value.str "t1", Value.str "t2", Value.str "t3"]
     [NumVal.val 1, NumVal.nan, NumVal.val 5, NumVal.val 3]
     (by decide) (by decide) (by decide) (by decide) (by decide) ⟨0, 1, by decide⟩⟩

/-- C8: with equal propagation and review tables the per-column value lines
of the Propagation and Reviewed Schedule blocks are identical, and with a
single data row the Max and Min lines of a non-opaque column both report that
row's value. -/
theorem C8_roundtrip (pd rd : Table) (names : List String) (name : String) (q : ℚ)
    (tv : Value) (heq : pd = rd)
    (hc : alookup name rd = some [Value.num (NumVal.val q)])
    (ht : alookup "Time" rd = some [tv])
    (hop : isOpaque name = false) :
    valLines pd (fun c => c.get? 0) names = valLines rd (fun c => c.get? 0) names ∧
    extLine rd nanargmax name =
      some ("    " ++ name ++ ": " ++ fixed6 q ++ "  (" ++ fmtS tv ++ ")\n") ∧
    extLine rd nanargmin name =
      some ("    " ++ name ++ ": " ++ fixed6 q ++ "  (" ++ fmtS tv ++ ")\n") := by
  subst heq
  have hn : colNums [Value.num (NumVal.val q)] = some [NumVal.val q] := rfl
  have hmax : nanargmax [NumVal.val q] = some 0 := by
    unfold nanargmax
    simp [numsOf, listMax, findFirstIdx]
  have hmin : nanargmin [NumVal.val q] = some 0 := by
    unfold nanargmin
    simp [numsOf, listMin, findFirstIdx]
  refine ⟨rfl, ?_, ?_⟩
  · exact extLine_eval hop hc hn hmax rfl ht rfl
  · exact extLine_eval hop hc hn hmin rfl ht rfl

/-- C8 witness: a one-row table used as both propagation and review. -/
theorem C8_witness :
    valLines [("Time", [Value.str "t1"]), ("A", [Value.num (NumVal.val 7)])]
        (fun c => c.get? 0) ["A"] =
      valLines [("Time", [Value.str "t1"]), ("A", [Value.num (NumVal.val 7)])]
        (fun c => c.get? 0) ["A"] ∧
    extLine [("Time", [Value.str "t1"]), ("A", [Value.num (NumVal.val 7)])] nanargmax "A" =
      some ("    " ++ "A" ++ ": " ++ fixed6 7 ++ "  (" ++ fmtS (Value.str "t1") ++ ")\n") ∧
    extLine [("Time", [Value.str "t1"]), ("A", [Value.num (NumVal.val 7)])] nanargmin "A" =
      some ("    " ++ "A" ++ ": " ++ fixed6 7 ++ "  (" ++ fmtS (Value.str "t1") ++ ")\n") :=
  C8_roundtrip [("Time", [Value.str "t1"]), ("A", [Value.num (NumVal.val 7)])]
    [("Time", [Value.str "t1"]), ("A", [Value.num (NumVal.val 7)])]
    ["A"] "A" 7 (Value.str "t1") rfl (by decide) (by decide) (by decide)

/-- C2 (code bug): the ending-configuration writer formats every allow-listed
column with `"%f"`, including acisfp's opaque string columns SI and
Within_Limit; `"%f"` on a string raises `TypeError`, so the acisfp group
fails and the run aborts even though the nine models before acisfp all
succeed — no line is ever produced for SI or Within_Limit. -/
theorem C2_propdata_opaque_typeerror :
    fmtF (Value.str "ACIS-I") = none ∧
    "SI" ∈ propnames ∧ "Within_Limit" ∈ propnames ∧
    isOpaque "SI" = true ∧ isOpaque "Within_Limit" = true ∧
    propGroup files10 "P" headerinfo0 false "acisfp" = none ∧
    (runProp files10 "P" (plotorder.take 9) headerinfo0 true).2.2 = true ∧
    (writePropData files10 "P").2.2 = false :=
  ⟨rfl, by decide, by decide, by decide, by decide, by decide, by decide, by decide⟩

/-- C3 counterexample: one report run mutates the schema registry — the oba
column-name list, `["Time", ...]` at construction, has lost its leading
`"Time"` entry afterwards. -/
theorem C3_counterexample :
    (alookup "oba" headerinfo0).map ModelInfo.names =
        some ["Time", "4RT700T", "4RT700T_0", "Pitch", "Roll"] ∧
      (alookup "oba" (writeChecklistData filesOba "P" "R").2.1).map ModelInfo.names =
        some ["4RT700T", "4RT700T_0", "Pitch", "Roll"] :=
  ⟨by decide, by decide⟩

/-- C3 (amended): the ending-configuration writer never mutates the registry,
but the comparison-report writer does: after a successful run over distinct
models, every processed model's column-name list has lost its first element
("Time", popped off the aliased list) and every other entry is unchanged. -/
theorem C3_amended_registry_mutation (files : Files) (prop review : String)
    (reg : Registry) (order : List String) (hnd : order.Nodup)
    (hok : (runChecklist files prop review order reg).2.2 = true) (m : String) :
    alookup m ((runChecklist files prop review order reg).2.1) =
      (if m ∈ order then (alookup m reg).map (fun i => { i with names := i.names.tail })
       else alookup m reg) ∧
    ∀ (pf : Files) (pp : String) (ord : List String) (rg : Registry) (b : Bool),
      (runProp pf pp ord rg b).2.1 = rg := by
  refine ⟨?_, fun pf pp ord rg b => runProp_reg ord rg b⟩
  revert hnd hok
  induction order generalizing reg with
  | nil =>
      intro hnd hok
      rw [runChecklist_nil]
      simp
  | cons m0 rest ih =>
      intro hnd hok
      cases hst : (stepChecklist files prop review reg m0).1.2 with
      | false =>
          rw [runChecklist_cons_fail hst] at hok
          exact Bool.noConfusion hok
      | true =>
          obtain ⟨sfx, info, pd, rd, h1, h2, h3, h4, hsec, hreg⟩ := stepChecklist_spec hst
          have hnodup := List.nodup_cons.mp hnd
          have hok2 : (runChecklist files prop review rest
              (setNames reg m0 info.names.tail)).2.2 = true := by
            rw [← hreg, ← runChecklist_cons_ok_ok hst]
            exact hok
          have ihres := ih (setNames reg m0 info.names.tail) hnodup.2 hok2
          rw [runChecklist_cons_ok_reg hst, hreg, ihres]
          by_cases hm0 : m = m0
          · subst hm0
            rw [if_neg (fun hc => hnodup.1 hc), if_pos (List.mem_cons_self m rest),
              alookup_setNames, if_pos rfl, h2]
            rfl
          · rw [alookup_setNames, if_neg hm0]
            by_cases hmr : m ∈ rest
            · rw [if_pos hmr, if_pos (List.mem_cons_of_mem m0 hmr)]
            · rw [if_neg hmr, if_neg ?_]
              intro hc
              rcases List.mem_cons.mp hc with h | h
              · exact hm0 h
              · exact hmr h

/-- C3 witness: a successful one-model run pops "Time" off that model's
column-name list in the registry. -/
theorem C3_amended_witness :
    (["oba"] : List String).Nodup ∧
    (runChecklist filesOba "P" "R" ["oba"] headerinfo0).2.2 = true ∧
    (alookup "oba" ((runChecklist filesOba "P" "R" ["oba"] headerinfo0).2.1) =
      (if "oba" ∈ (["oba"] : List String) then
        (alookup "oba" headerinfo0).map (fun i => { i with names := i.names.tail })
       else alookup "oba" headerinfo0) ∧
    ∀ (pf : Files) (pp : String) (ord : List String) (rg : Registry) (b : Bool),
      (runProp pf pp ord rg b).2.1 = rg) :=
  ⟨by decide, by decide,
   C3_amended_registry_mutation filesOba "P" "R" headerinfo0 ["oba"] (by decide) (by decide)
     "oba"⟩

/-- C4 counterexample: with the tank file missing the report run fails, yet
its output equals the full successful oba section (nonempty) — per-model
partial output exists, refuting "no section for any model". -/
theorem C4_counterexample :
    (writeChecklistData filesOba "P" "R").2.2 = false ∧
    (writeChecklistData filesOba "P" "R").1 ≠ "" ∧
    (runChecklist filesOba "P" "R" ["oba"] headerinfo0).2.2 = true ∧
    (writeChecklistData filesOba "P" "R").1 =
      (runChecklist filesOba "P" "R" ["oba"] headerinfo0).1 :=
  ⟨by decide, by decide, by decide, by decide⟩

/-- C4 (amended): a failing report run has a first failing model: every model
before it succeeded and wrote its complete section, the failing model wrote
only the prefix of its section preceding the error (empty when its files fail
to read, since both reads precede every write), later models wrote nothing,
and the run ends with an error. -/
theorem C4_amended_first_failure (files : Files) (prop review : String)
    (order : List String) (reg : Registry)
    (hfail : (runChecklist files prop review order reg).2.2 = false) :
    ∃ pre m post, order = pre ++ m :: post ∧
      (runChecklist files prop review pre reg).2.2 = true ∧
      (stepChecklist files prop review
        ((runChecklist files prop review pre reg).2.1) m).1.2 = false ∧
      (runChecklist files prop review order reg).1 =
        (runChecklist files prop review pre reg).1 ++
          (stepChecklist files prop review
            ((runChecklist files prop review pre reg).2.1) m).1.1 :=
  runChecklist_failure hfail

/-- C4 witness: a run whose review oba file has an all-NaN column fails
inside the oba section, leaving that section's nonempty prefix in the
report. -/
theorem C4_amended_witness :
    (runChecklist filesNaN "P" "R" plotorder headerinfo0).2.2 = false ∧
    (writeChecklistData filesNaN "P" "R").1 ≠ "" ∧
    ∃ pre m post, plotorder = pre ++ m :: post ∧
      (runChecklist filesNaN "P" "R" pre headerinfo0).2.2 = true ∧
      (stepChecklist filesNaN "P" "R"
        ((runChecklist filesNaN "P" "R" pre headerinfo0).2.1) m).1.2 = false ∧
      (runChecklist filesNaN "P" "R" plotorder headerinfo0).1 =
        (runChecklist filesNaN "P" "R" pre headerinfo0).1 ++
          (stepChecklist filesNaN "P" "R"
            ((runChecklist filesNaN "P" "R" pre headerinfo0).2.1) m).1.1 :=
  ⟨by decide, by decide,
   C4_amended_first_failure filesNaN "P" "R" plotorder headerinfo0 (by decide)⟩

/-- C9: both writers iterate exactly the fixed display order oba, tank, mups,
psmc, dpa, dea, aca, pline03t, pline04t, acisfp; a successful report is one
section per listed model in that order; the ending configuration is the
in-order concatenation of the complete per-model groups of an initial segment
of that order — the whole order exactly on success — followed, on failure, by
the text the first failing model's group wrote before its error; cc and hrc
are in the registry but excluded from both outputs. -/
theorem C9_display_order (files : Files) (prop review : String)
    (hok : (writeChecklistData files prop review).2.2 = true) :
    plotorder =
        ["oba", "tank", "mups", "psmc", "dpa", "dea", "aca", "pline03t", "pline04t", "acisfp"] ∧
    ("cc" ∉ plotorder ∧ "hrc" ∉ plotorder ∧
      (alookup "cc" headerinfo0).isSome ∧ (alookup "hrc" headerinfo0).isSome) ∧
    (∃ ss : List String, runSections files prop review plotorder headerinfo0 = some ss ∧
      ss.length = plotorder.length ∧
      (writeChecklistData files prop review).1 = concatAll ss) ∧
    (∀ (pf : Files) (pp : String), ∃ k, k ≤ plotorder.length ∧
      ∃ gs, propSections pf pp (plotorder.take k) headerinfo0 true = some gs ∧
        (((writePropData pf pp).2.2 = true ∧ k = plotorder.length ∧
          (writePropData pf pp).1 = concatAll gs) ∨
         (∃ m, plotorder.get? k = some m ∧
           (propGroupW pf pp headerinfo0 (decide (k = 0)) m).2 = false ∧
           (writePropData pf pp).1 =
             concatAll gs ++ (propGroupW pf pp headerinfo0 (decide (k = 0)) m).1 ∧
           (writePropData pf pp).2.2 = false))) := by
  refine ⟨rfl, ⟨by decide, by decide, by decide, by decide⟩, ?_, ?_⟩
  · exact runChecklist_sections hok
  · intro pf pp
    obtain ⟨k, hk, gs, hgs, hbranch⟩ :=
      @runProp_sections pf pp plotorder headerinfo0 true
    refine ⟨k, hk, gs, hgs, ?_⟩
    simpa only [Bool.true_and] using hbranch

/-- C9 witness: the complete ten-model working directory. -/
theorem C9_witness :
    (writeChecklistData files10 "P" "R").2.2 = true ∧
    (plotorder =
        ["oba", "tank", "mups", "psmc", "dpa", "dea", "aca", "pline03t", "pline04t", "acisfp"] ∧
    ("cc" ∉ plotorder ∧ "hrc" ∉ plotorder ∧
      (alookup "cc" headerinfo0).isSome ∧ (alookup "hrc" headerinfo0).isSome) ∧
    (∃ ss : List String, runSections files10 "P" "R" plotorder headerinfo0 = some ss ∧
      ss.length = plotorder.length ∧
      (writeChecklistData files10 "P" "R").1 = concatAll ss) ∧
    (∀ (pf : Files) (pp : String), ∃ k, k ≤ plotorder.length ∧
      ∃ gs, propSections pf pp (plotorder.take k) headerinfo0 true = some gs ∧
        (((writePropData pf pp).2.2 = true ∧ k = plotorder.length ∧
          (writePropData pf pp).1 = concatAll gs) ∨
         (∃ m, plotorder.get? k = some m ∧
           (propGroupW pf pp headerinfo0 (decide (k = 0)) m).2 = false ∧
           (writePropData pf pp).1 =
             concatAll gs ++ (propGroupW pf pp headerinfo0 (decide (k = 0)) m).1 ∧
           (writePropData pf pp).2.2 = false)))) :=
  ⟨by decide, C9_display_order files10 "P" "R" (by decide)⟩

end LoadReview
